import Mathlib

/-!
Verification development for `pulhodina`, a tool that converts a
tab-delimited financial export into an HTML table with row-spanning cells.

The development shallowly embeds the final draft (`pulhodina.py`) and, for
the `available` computation, the earlier draft (`src/pulhodina.py`).
Python strings are `String`/`List Char`; `decimal.Decimal` values are
coefficient/exponent pairs (`PyDecimal`) whose arithmetic rounds to the
default 28-digit context precision; fallible operations return `Option`.
-/

namespace Pulhodina

/-- Model of Python `str.isspace` membership for a single character:
the ASCII whitespace characters recognised by `str.strip()`. -/
def isWsChar (c : Char) : Bool :=
  c.toNat = 32 || c.toNat = 9 || c.toNat = 10 || c.toNat = 13 ||
  c.toNat = 11 || c.toNat = 12

/-- ASCII decimal digit test (model of the character class accepted by
Python `int`/`Decimal` digit positions). -/
def isDigitChar (c : Char) : Bool :=
  48 ≤ c.toNat && c.toNat ≤ 57

/-- Numeric value of an ASCII digit character. -/
def charToDigit (c : Char) : Nat := c.toNat - 48

/-- Model of Python `str.strip()` on a character list: drop leading and
trailing whitespace. -/
def pyStripChars (cs : List Char) : List Char :=
  ((cs.dropWhile isWsChar).reverse.dropWhile isWsChar).reverse

/-- Model of Python `str.strip()`. -/
def pyStrip (s : String) : String := ⟨pyStripChars s.data⟩

/-- Model of Python `str.split('\t')`: split at every tab, keeping empty
fields; the result is never empty. -/
def splitTabs : List Char → List (List Char)
  | [] => [[]]
  | c :: rest =>
    match splitTabs rest with
    | [] => [[c]]
    | h :: t => if c = '\t' then [] :: h :: t else (c :: h) :: t

/-- `[part.strip() for part in line.split('\t')]` from `Record.__init__`. -/
def splitFields (s : String) : List String :=
  (splitTabs s.data).map (fun cs => ⟨pyStripChars cs⟩)

/-- Data of a record (`class Record`).  `Record.__init__` assigns the
eleven attributes from `parts[0]`‥`parts[10]` in order and catches the
`IndexError` inside the constructor, so an attribute is present exactly
when the corresponding part exists; missing attributes are `none`. -/
structure Record where
  sorg : Option String
  cred_acct : Option String
  name1 : Option String
  po_number : Option String
  credit_value : Option String
  open_del : Option String
  receivables : Option String
  special_liab : Option String
  cred_limit : Option String
  use : Option String
  next_date : Option String
deriving DecidableEq, Repr, Inhabited

/-- `Record.__init__`: split the line on tabs, strip each part, and fill
the eleven attributes; parts beyond the end of the list stay unset. -/
def Record.ofLine (line : String) : Record :=
  let parts := splitFields line
  ⟨parts[0]?, parts[1]?, parts[2]?, parts[3]?, parts[4]?, parts[5]?,
   parts[6]?, parts[7]?, parts[8]?, parts[9]?, parts[10]?⟩

/-- A record is complete when all eleven attributes were assigned,
i.e. the line had at least 11 tab-separated fields. -/
def Record.isComplete (r : Record) : Bool :=
  r.sorg.isSome && r.cred_acct.isSome && r.name1.isSome &&
  r.po_number.isSome && r.credit_value.isSome && r.open_del.isSome &&
  r.receivables.isSome && r.special_liab.isSome && r.cred_limit.isSome &&
  r.use.isSome && r.next_date.isSome

/-- A section is its list of records (`Section.records`). -/
abbrev PySection := List Record

/-- A data file is its list of sections (`DataFile.sections`). -/
abbrev DataFile := List PySection

/-- `DataFile.add_section`: empty sections are discarded, others appended. -/
def addSection (doc : DataFile) (sec : PySection) : DataFile :=
  if sec.isEmpty then doc else doc ++ [sec]

/-- The loop body of `Parser.parse` over the remaining lines, carrying the
document built so far and the current section.  Each line is stripped;
empty lines are skipped; a line starting with `*` flushes the current
section; any other line is decoded into a `Record` and appended.  At end
of input the unfinished section is flushed. -/
def parseLoop (doc : DataFile) (cur : PySection) : List String → DataFile
  | [] => addSection doc cur
  | line :: rest =>
    let l := pyStrip line
    if l = "" then parseLoop doc cur rest
    else if l.data.head? = some '*' then parseLoop (addSection doc cur) [] rest
    else parseLoop doc (cur ++ [Record.ofLine l]) rest

/-- `Parser.parse`: skip the first two lines, then run the loop. -/
def parse (lines : List String) : DataFile :=
  parseLoop [] [] (lines.drop 2)

/-- `Section.is_same_values`: whether a column has the same value in all
records of a section (the values are given as the per-record list). -/
def is_same_values : List String → Bool
  | [] => true
  | first :: rest => rest.all (fun v => v == first)

/-- Accumulate the numeric value of a run of ASCII digit characters. -/
def digitsToNat (cs : List Char) : Nat :=
  cs.foldl (fun a c => 10 * a + charToDigit c) 0

/-- Decimal digits of `n`, most significant first, via repeated division;
the fuel argument makes the recursion structural and is always called
with `fuel ≥ n`. -/
def natToCharsAux : Nat → Nat → List Char
  | 0, _ => ['0']
  | fuel + 1, n =>
    if n < 10 then [Nat.digitChar n]
    else natToCharsAux fuel (n / 10) ++ [Nat.digitChar (n % 10)]

/-- Decimal digit string of a natural number (`'0'` for zero), as Python
renders the integer or fractional digits of a number. -/
def natToChars (n : Nat) : List Char := natToCharsAux n n

/-- Number of decimal digits of a coefficient (1 for zero), the length
Python's decimal context compares against its precision. -/
def numDigits (n : Nat) : Nat := (natToChars n).length

/-- All-digit check plus value for a nonempty digit run. -/
def parseNatDigits? (cs : List Char) : Option Nat :=
  if cs.isEmpty || !cs.all isDigitChar then none else some (digitsToNat cs)

/-- Model of Python `int(str)` on an already-stripped character list:
optional sign followed by at least one decimal digit.  The same grammar
parses the signed exponent of a decimal literal. -/
def pyIntOfChars? : List Char → Option Int
  | [] => none
  | c :: rest =>
    if c = '-' then (parseNatDigits? rest).map (fun n => -(n : Int))
    else if c = '+' then (parseNatDigits? rest).map (fun n => (n : Int))
    else (parseNatDigits? (c :: rest)).map (fun n => (n : Int))

/-- A `decimal.Decimal` value: an integer coefficient (mantissa) and an
integer exponent, denoting `mant * 10 ^ exp`, exactly Python's
coefficient/exponent pair. -/
structure PyDecimal where
  mant : Int
  exp : Int
deriving DecidableEq, Repr

/-- The rational value denoted by a decimal. -/
def PyDecimal.toRat (d : PyDecimal) : ℚ :=
  (d.mant : ℚ) * (10 : ℚ) ^ d.exp

/-- The default decimal context precision: 28 significant digits. -/
def PREC : Nat := 28

/-- Round a decimal to the context precision with `ROUND_HALF_EVEN` on
the coefficient's magnitude, as Python's arithmetic context does after
every operation: drop the excess low digits, round half to even, and
absorb a carry that would exceed the precision into the exponent. -/
def contextRound (d : PyDecimal) : PyDecimal :=
  let n := d.mant.natAbs
  if numDigits n ≤ PREC then d
  else
    let k := numDigits n - PREC
    let p := 10 ^ k
    let q := n / p
    let r := n % p
    let q1 := if r > p / 2 || (r == p / 2 && q % 2 == 1) then q + 1 else q
    let q2 := if numDigits q1 > PREC then q1 / 10 else q1
    let e := if numDigits q1 > PREC then d.exp + (k : Int) + 1
             else d.exp + (k : Int)
    ⟨if d.mant < 0 then -(q2 : Int) else (q2 : Int), e⟩

/-- Exact decimal product before rounding: mantissas multiply, exponents
add. -/
def rawMul (a b : PyDecimal) : PyDecimal :=
  ⟨a.mant * b.mant, a.exp + b.exp⟩

/-- Exact decimal sum before rounding: align both operands to the
smaller exponent, then add mantissas. -/
def rawAdd (a b : PyDecimal) : PyDecimal :=
  let e := min a.exp b.exp
  ⟨a.mant * 10 ^ (a.exp - e).toNat + b.mant * 10 ^ (b.exp - e).toNat, e⟩

/-- Exact decimal difference before rounding: align both operands to the
smaller exponent, then subtract mantissas. -/
def rawSub (a b : PyDecimal) : PyDecimal :=
  let e := min a.exp b.exp
  ⟨a.mant * 10 ^ (a.exp - e).toNat - b.mant * 10 ^ (b.exp - e).toNat, e⟩

/-- Decimal multiplication: the exact product rounded to the 28-digit
context precision. -/
def PyDecimal.mul (a b : PyDecimal) : PyDecimal := contextRound (rawMul a b)

/-- Decimal addition: the exact aligned sum rounded to the 28-digit
context precision. -/
def PyDecimal.add (a b : PyDecimal) : PyDecimal := contextRound (rawAdd a b)

/-- Decimal subtraction: the exact aligned difference rounded to the
28-digit context precision. -/
def PyDecimal.sub (a b : PyDecimal) : PyDecimal := contextRound (rawSub a b)

/-- The decimal `1000` (the literal the two scalings multiply by). -/
def pyDecimal1000 : PyDecimal := ⟨1000, 0⟩

/-- Parse an unsigned plain decimal literal (`digits`, `digits.digits`,
`digits.`, `.digits`), returning coefficient and exponent
`-(fraction length)`; anything else is rejected, like the
`InvalidOperation` of the `Decimal` constructor. -/
def parsePlainDec (cs : List Char) : Option PyDecimal :=
  let ipart := cs.takeWhile (fun c => c != '.')
  match cs.dropWhile (fun c => c != '.') with
  | [] =>
    if ipart.isEmpty || !ipart.all isDigitChar then none
    else some ⟨digitsToNat ipart, 0⟩
  | _ :: frac =>
    if (ipart.isEmpty && frac.isEmpty) || !ipart.all isDigitChar
        || !frac.all isDigitChar then none
    else some ⟨digitsToNat ipart * 10 ^ frac.length + digitsToNat frac,
               -(frac.length : Int)⟩

/-- Parse an unsigned decimal literal with an optional `E`/`e` exponent
suffix, as the `Decimal` constructor accepts: the exponent (a signed
integer) is added to the plain literal's exponent. -/
def parseUnsignedDec (cs : List Char) : Option PyDecimal :=
  let mantPart := cs.takeWhile (fun c => c != 'E' && c != 'e')
  match cs.dropWhile (fun c => c != 'E' && c != 'e') with
  | [] => parsePlainDec cs
  | _ :: es => do
    let m ← parsePlainDec mantPart
    let e ← pyIntOfChars? es
    some ⟨m.mant, m.exp + e⟩

/-- Model of the `Decimal` constructor on a (comma-free) character list:
optional sign followed by an unsigned decimal literal.  Construction
from a string does not round, whatever the coefficient length. -/
def pyDecimalOfChars? : List Char → Option PyDecimal
  | [] => none
  | c :: rest =>
    if c = '-' then (parseUnsignedDec rest).map (fun d => ⟨-d.mant, d.exp⟩)
    else if c = '+' then parseUnsignedDec rest
    else parseUnsignedDec (c :: rest)

/-- Model of the `Decimal` constructor on a (comma-free) string. -/
def pyDecimalOfString? (s : String) : Option PyDecimal :=
  pyDecimalOfChars? s.data

/-- Model of `str.replace(',', '')`: drop every comma. -/
def stripCommas (s : String) : String := ⟨s.data.filter (fun c => c != ',')⟩

/-- The derived monetary values `transform_in_place` computes for one
record before formatting them. -/
structure Derived where
  open_del_scaled : PyDecimal
  saldo : PyDecimal
  cred_limit_scaled : PyDecimal
  available : PyDecimal
deriving DecidableEq, Repr

/-- The numeric part of `HtmlFormatter.transform_in_place` in
`pulhodina.py`: parse the four raw fields with commas stripped, scale
open deliveries and credit limit by 1000, and compute
`saldo = receivables + special_liab` and
`available = cred_limit - (saldo + open_del)`.  `none` models the
`AttributeError`/`InvalidOperation` the Python code would raise. -/
def derivedValues? (r : Record) : Option Derived := do
  let odS ← r.open_del
  let rcS ← r.receivables
  let slS ← r.special_liab
  let clS ← r.cred_limit
  let od ← pyDecimalOfString? (stripCommas odS)
  let rc ← pyDecimalOfString? (stripCommas rcS)
  let sl ← pyDecimalOfString? (stripCommas slS)
  let cl ← pyDecimalOfString? (stripCommas clS)
  let open_del := od.mul pyDecimal1000
  let cred_limit := cl.mul pyDecimal1000
  let saldo := rc.add sl
  some ⟨open_del, saldo, cred_limit, cred_limit.sub (saldo.add open_del)⟩

/-- The numeric part of `HtmlFormatter.transform_in_place` in the earlier
draft `src/pulhodina.py`, identical except for the grouping of the
`available` formula: `available = cred_limit - saldo + open_del`. -/
def derivedValuesV2? (r : Record) : Option Derived := do
  let odS ← r.open_del
  let rcS ← r.receivables
  let slS ← r.special_liab
  let clS ← r.cred_limit
  let od ← pyDecimalOfString? (stripCommas odS)
  let rc ← pyDecimalOfString? (stripCommas rcS)
  let sl ← pyDecimalOfString? (stripCommas slS)
  let cl ← pyDecimalOfString? (stripCommas clS)
  let open_del := od.mul pyDecimal1000
  let cred_limit := cl.mul pyDecimal1000
  let saldo := rc.add sl
  some ⟨open_del, saldo, cred_limit, (cred_limit.sub saldo).add open_del⟩

/-- Insert a comma after every three characters of a reversed digit list;
fuel keeps the recursion structural (`fuel ≥ l.length` suffices). -/
def groupRAux : Nat → List Char → List Char
  | 0, l => l
  | fuel + 1, l =>
    if l.length ≤ 3 then l
    else l.take 3 ++ ',' :: groupRAux fuel (l.drop 3)

/-- Thousands grouping of a digit list, as `'{:,}'.format` renders the
integer part: a comma between every group of three digits, counted from
the right. -/
def groupDigits (cs : List Char) : List Char :=
  (groupRAux cs.length cs.reverse).reverse

/-- Left-pad a digit list with zeros to width `k` (fractional digits of a
decimal of scale `k`). -/
def padZeros (k : Nat) (cs : List Char) : List Char :=
  List.replicate (k - cs.length) '0' ++ cs

/-- Plain fixed-point rendering of a non-negative decimal with
coefficient `M` and exponent `-s`: grouped integer part, and for
positive `s` a point followed by exactly `s` fractional digits. -/
def pyFormatN (M : Nat) (s : Nat) : List Char :=
  if s = 0 then groupDigits (natToChars M)
  else
    groupDigits (natToChars (M / 10 ^ s)) ++
      '.' :: padZeros s (natToChars (M % 10 ^ s))

/-- Scientific rendering of a non-negative decimal, as Python uses for
an adjusted exponent below -6 or a positive exponent: one leading
digit, the remaining digits as a fractional part when present, and an
`E` exponent with an explicit sign. -/
def pyFormatSci (M : Nat) (e : Int) : List Char :=
  match natToChars M with
  | [] => []
  | h :: t =>
    let pe := e + t.length
    (h :: (if t.isEmpty then [] else '.' :: t)) ++
      'E' :: (if pe < 0 then '-' :: natToChars pe.natAbs
              else '+' :: natToChars pe.toNat)

/-- `'{:,}'.format` on a non-negative decimal: plain fixed-point
rendering when the exponent is non-positive and the adjusted exponent is
at least -6 (Python's condition `exp <= 0 and leftdigits > -6`),
scientific rendering otherwise. -/
def pyFormatPos (M : Nat) (e : Int) : List Char :=
  if e ≤ 0 ∧ (-6 : Int) < e + (natToChars M).length then
    pyFormatN M (-e).toNat
  else pyFormatSci M e

/-- `'{:,}'.format` on a decimal: a minus sign in front of the formatted
absolute value when the mantissa is negative. -/
def pyFormat (d : PyDecimal) : List Char :=
  if d.mant < 0 then '-' :: pyFormatPos d.mant.natAbs d.exp
  else pyFormatPos d.mant.toNat d.exp

/-- Model of `str.rstrip(c)` for a single character: drop every trailing
occurrence of `c`. -/
def stripTrailing (c : Char) (cs : List Char) : List Char :=
  (cs.reverse.dropWhile (fun x => x == c)).reverse

/-- The display formatting of `transform_in_place`:
`'{:,}'.format(value).rstrip('0').rstrip('.')`. -/
def pyFormatStrip (d : PyDecimal) : String :=
  ⟨stripTrailing '.' (stripTrailing '0' (pyFormat d))⟩

/-- A record after `transform_in_place`: the seven untouched string
attributes plus the four formatted derived strings that overwrite
`open_del`, `cred_limit` and add `saldo`, `available`. -/
structure TransRecord where
  cred_acct : String
  name1 : String
  po_number : String
  credit_value : String
  open_del : String
  saldo : String
  cred_limit : String
  available : String
  use : String
  next_date : String
deriving DecidableEq, Repr, Inhabited

/-- Full `transform_in_place` for one record of `pulhodina.py`: compute
the derived decimals and store their trimmed formatted strings on the
record.  `none` models the exception the Python code would raise on a
record with missing attributes or unparseable numbers. -/
def transformRecord? (r : Record) : Option TransRecord := do
  let ca ← r.cred_acct
  let n1 ← r.name1
  let po ← r.po_number
  let cv ← r.credit_value
  let useS ← r.use
  let nd ← r.next_date
  let d ← derivedValues? r
  some ⟨ca, n1, po, cv, pyFormatStrip d.open_del_scaled, pyFormatStrip d.saldo,
        pyFormatStrip d.cred_limit_scaled, pyFormatStrip d.available, useS, nd⟩

/-- One emitted `<td>` cell: either a row-spanning cell or a plain one. -/
inductive Cell where
  | spanning (rowspan : Nat) (value : String)
  | plain (value : String)
deriving DecidableEq, Repr

/-- `HtmlFormatter.write_cell`: on the first row of a column whose values
all agree, a cell spanning the whole section; on any row of a column
whose values differ, a plain cell; otherwise nothing. -/
def write_cell (first_row : Bool) (rowspan : Nat) (same : Bool)
    (value : String) : Option Cell :=
  if first_row && same then some (.spanning rowspan value)
  else if !same then some (.plain value)
  else none

/-- The ten `same_*` flags `write_section` precomputes with
`Section.is_same_values`. -/
structure SameFlags where
  cred_acct : Bool
  name1 : Bool
  po_number : Bool
  credit_value : Bool
  open_del : Bool
  saldo : Bool
  cred_limit : Bool
  available : Bool
  use : Bool
  next_date : Bool
deriving DecidableEq, Repr

/-- The flags for a section, one `is_same_values` call per column. -/
def sameFlags (rs : List TransRecord) : SameFlags :=
  ⟨is_same_values (rs.map (·.cred_acct)),
   is_same_values (rs.map (·.name1)),
   is_same_values (rs.map (·.po_number)),
   is_same_values (rs.map (·.credit_value)),
   is_same_values (rs.map (·.open_del)),
   is_same_values (rs.map (·.saldo)),
   is_same_values (rs.map (·.cred_limit)),
   is_same_values (rs.map (·.available)),
   is_same_values (rs.map (·.use)),
   is_same_values (rs.map (·.next_date))⟩

/-- The owner value `write_section` renders for an account: the directory
entry, or the sentinel `UNKNOWN` when the `KeyError` is caught. -/
def ownerCellValue (owners : String → Option String) (acct : String) :
    String :=
  match owners acct with
  | some name => name
  | none => "UNKNOWN"

/-- The thirteen cells of one `<tr>` written by `write_section`: the ten
display columns, the two always-merged blank columns, and the owner
column (merged whenever the account column is). -/
def rowCells (owners : String → Option String) (rowspan : Nat)
    (f : SameFlags) (first_row : Bool) (r : TransRecord) :
    List (Option Cell) :=
  [write_cell first_row rowspan f.cred_acct r.cred_acct,
   write_cell first_row rowspan f.name1 r.name1,
   write_cell first_row rowspan f.po_number r.po_number,
   write_cell first_row rowspan f.credit_value r.credit_value,
   write_cell first_row rowspan f.open_del r.open_del,
   write_cell first_row rowspan f.saldo r.saldo,
   write_cell first_row rowspan f.cred_limit r.cred_limit,
   write_cell first_row rowspan f.available r.available,
   write_cell first_row rowspan f.use r.use,
   write_cell first_row rowspan f.next_date r.next_date,
   write_cell first_row rowspan true "",
   write_cell first_row rowspan true "",
   write_cell first_row rowspan f.cred_acct
     (ownerCellValue owners r.cred_acct)]

/-- The row loop of `write_section`: `first_row` starts `true` and is
`false` from the second record on. -/
def writeRows (owners : String → Option String) (rowspan : Nat)
    (f : SameFlags) : Bool → List TransRecord → List (List (Option Cell))
  | _, [] => []
  | first_row, r :: rest =>
    rowCells owners rowspan f first_row r ::
      writeRows owners rowspan f false rest

/-- `HtmlFormatter.write_section`: the rows of cells emitted for one
section (rowspan is the record count; the flags are computed once). -/
def writeSection (owners : String → Option String)
    (rs : List TransRecord) : List (List (Option Cell)) :=
  writeRows owners rs.length (sameFlags rs) true rs

/-- The cells a given column contributes to each emitted row. -/
def colCells (j : Nat) (rows : List (List (Option Cell))) :
    List (Option Cell) :=
  rows.map (fun row => row.getD j none)

/-- The ten display columns: position in the row and record attribute. -/
def displayColumns : List (Nat × (TransRecord → String)) :=
  [(0, fun r => r.cred_acct), (1, fun r => r.name1),
   (2, fun r => r.po_number), (3, fun r => r.credit_value),
   (4, fun r => r.open_del), (5, fun r => r.saldo),
   (6, fun r => r.cred_limit), (7, fun r => r.available),
   (8, fun r => r.use), (9, fun r => r.next_date)]

/-- `read_account_owners`: fold the owner-file lines into a directory;
a line without two tab-separated parts is skipped with a diagnostic,
later entries overwrite earlier ones. -/
def readAccountOwners (lines : List String) : String → Option String :=
  lines.foldl
    (fun acc line =>
      let parts := splitFields line
      match parts[0]?, parts[1]? with
      | some k, some v => fun k' => if k' = k then some v else acc k'
      | _, _ => acc)
    (fun _ => none)

/-- `SAVED_MINUTES_PER_RUN`: the fixed number of minutes credited per run. -/
def SAVED_MINUTES_PER_RUN : Int := 30

/-- Model of Python `int(str)` on an already-stripped string. -/
def pyParseInt? (s : String) : Option Int :=
  pyIntOfChars? s.data

/-- Python `str(int)`: decimal digits with a leading minus for negatives. -/
def intToString (n : Int) : String :=
  if n < 0 then ⟨'-' :: natToChars n.natAbs⟩ else ⟨natToChars n.toNat⟩

/-- `inc_saved_time` over a counter-file state (`none` models a missing
or unreadable file).  Reading failures and unparseable contents reset the
counter to zero with a warning; the incremented value is written back
(`print` appends a newline) and returned. -/
def incSavedTime (file : Option String) : Int × String :=
  let saved : Int :=
    match file with
    | none => 0
    | some contents =>
      match pyParseInt? (pyStrip contents) with
      | some n => n
      | none => 0
  let updated := saved + SAVED_MINUTES_PER_RUN
  (updated, intToString updated ++ "\n")

/-- A complete sample input line: organization `s1`, account `4711`,
name `ACME`, PO `po1`, credit value `5`, open deliveries `1.5`,
receivables `10`, special liabilities `2`, credit limit `20`, use `u`,
next date `2014-01-01`. -/
def sampleLine : String :=
  "s1\t4711\tACME\tpo1\t5\t1.5\t10\t2\t20\tu\t2014-01-01"

/-- The record decoded from `sampleLine`. -/
def sampleRecord : Record := Record.ofLine sampleLine

/-- A sample input line whose credit limit has 29 significant digits, so
scaling it by 1000 exceeds the 28-digit context precision and rounds. -/
def roundingSampleLine : String :=
  "s1\t4711\tACME\tpo1\t5\t1\t0\t0\t12345678901234567890123456789\tu\td"

/-- The record decoded from `roundingSampleLine`. -/
def roundingSampleRecord : Record := Record.ofLine roundingSampleLine

/-- A sample input line whose receivables are `0.00000000012`, so the
saldo is Decimal 1.2E-10, whose adjusted exponent is below -6 and which
is therefore formatted in scientific form. -/
def sciSampleLine : String :=
  "s1\t4711\tACME\tpo1\t5\t0\t0.00000000012\t0\t1\tu\td"

/-- The record decoded from `sciSampleLine`. -/
def sciSampleRecord : Record := Record.ofLine sciSampleLine

/-- The digit characters produced by `Nat.digitChar` for values below ten
satisfy `isDigitChar`. -/
theorem isDigitChar_digitChar {d : Nat} (h : d < 10) :
    isDigitChar (Nat.digitChar d) = true := by
  interval_cases d <;> decide

/-- `charToDigit` inverts `Nat.digitChar` on values below ten. -/
theorem charToDigit_digitChar {d : Nat} (h : d < 10) :
    charToDigit (Nat.digitChar d) = d := by
  interval_cases d <;> decide

/-- A digit character has code point between 48 and 57. -/
theorem toNat_of_isDigitChar {c : Char} (h : isDigitChar c = true) :
    48 ≤ c.toNat ∧ c.toNat ≤ 57 := by
  simpa [isDigitChar, Nat.le_iff_lt_or_eq] using h

/-- A digit character is not a decimal point. -/
theorem digit_bne_dot {c : Char} (h : isDigitChar c = true) :
    (c != '.') = true := by
  obtain ⟨h1, _⟩ := toNat_of_isDigitChar h
  have hv : ('.' : Char).toNat = 46 := by decide
  have : c ≠ '.' := by
    intro e; rw [e, hv] at h1; omega
  simpa using this

/-- A digit character is not a comma. -/
theorem digit_bne_comma {c : Char} (h : isDigitChar c = true) :
    (c != ',') = true := by
  obtain ⟨h1, _⟩ := toNat_of_isDigitChar h
  have hv : (',' : Char).toNat = 44 := by decide
  have : c ≠ ',' := by
    intro e; rw [e, hv] at h1; omega
  simpa using this

/-- A digit character is not the zero character test target `'0'` only in
code point terms; what we need: a digit is not whitespace. -/
theorem digit_not_ws {c : Char} (h : isDigitChar c = true) :
    isWsChar c = false := by
  obtain ⟨h1, h2⟩ := toNat_of_isDigitChar h
  simp [isWsChar]; omega

/-- A digit character is not a sign character. -/
theorem digit_ne_minus {c : Char} (h : isDigitChar c = true) : c ≠ '-' := by
  obtain ⟨h1, _⟩ := toNat_of_isDigitChar h
  have hv : ('-' : Char).toNat = 45 := by decide
  intro e; rw [e, hv] at h1; omega

/-- A digit character is not a plus sign. -/
theorem digit_ne_plus {c : Char} (h : isDigitChar c = true) : c ≠ '+' := by
  obtain ⟨h1, _⟩ := toNat_of_isDigitChar h
  have hv : ('+' : Char).toNat = 43 := by decide
  intro e; rw [e, hv] at h1; omega

/-- Folding the digit accumulator from an arbitrary start value. -/
theorem foldl_digits_acc (cs : List Char) :
    ∀ acc : Nat,
      cs.foldl (fun a c => 10 * a + charToDigit c) acc =
      acc * 10 ^ cs.length + digitsToNat cs := by
  induction cs with
  | nil => intro acc; simp [digitsToNat]
  | cons c cs ih =>
    intro acc
    simp only [List.foldl_cons, digitsToNat, List.length_cons]
    rw [ih (10 * acc + charToDigit c), ih (10 * 0 + charToDigit c)]
    ring

/-- Digit-string value of a concatenation. -/
theorem digitsToNat_append (a b : List Char) :
    digitsToNat (a ++ b) = digitsToNat a * 10 ^ b.length + digitsToNat b := by
  unfold digitsToNat
  rw [List.foldl_append, foldl_digits_acc]
  rfl

/-- A run of zero characters has value zero. -/
theorem digitsToNat_replicate_zero (k : Nat) :
    digitsToNat (List.replicate k '0') = 0 := by
  induction k with
  | zero => rfl
  | succ k ih =>
    rw [List.replicate_succ]
    show List.foldl (fun a c => 10 * a + charToDigit c)
      (10 * 0 + charToDigit '0') (List.replicate k '0') = 0
    rw [foldl_digits_acc]
    have h0 : 10 * 0 + charToDigit '0' = 0 := by decide
    rw [h0, ih]
    simp

/-- Left zero-padding does not change the value of a digit string. -/
theorem digitsToNat_padZeros (k : Nat) (cs : List Char) :
    digitsToNat (padZeros k cs) = digitsToNat cs := by
  unfold padZeros
  rw [digitsToNat_append, digitsToNat_replicate_zero]
  simp

/-- Trailing zeros multiply the value of a digit string by a power of ten. -/
theorem digitsToNat_append_zeros (cs : List Char) (k : Nat) :
    digitsToNat (cs ++ List.replicate k '0') = digitsToNat cs * 10 ^ k := by
  rw [digitsToNat_append, digitsToNat_replicate_zero,
    List.length_replicate]
  simp

/-- The padded fractional digit list has width `k` when the value fits. -/
theorem padZeros_length {k : Nat} {cs : List Char} (h : cs.length ≤ k) :
    (padZeros k cs).length = k := by
  simp [padZeros]
  omega

/-- `natToCharsAux` renders the decimal digits of its argument: the value
reads back, the result is nonempty, and every character is a digit. -/
theorem natToCharsAux_spec :
    ∀ fuel n, n ≤ fuel →
      digitsToNat (natToCharsAux fuel n) = n ∧
      natToCharsAux fuel n ≠ [] ∧
      ∀ c ∈ natToCharsAux fuel n, isDigitChar c = true := by
  intro fuel
  induction fuel with
  | zero =>
    intro n hn
    interval_cases n
    refine ⟨rfl, by decide, by decide⟩
  | succ fuel ih =>
    intro n hn
    by_cases h10 : n < 10
    · refine ⟨?_, ?_, ?_⟩
      · simp [natToCharsAux, h10, digitsToNat, charToDigit_digitChar h10]
      · simp [natToCharsAux, h10]
      · simp [natToCharsAux, h10]
        exact isDigitChar_digitChar h10
    · have hdiv : n / 10 ≤ fuel := by omega
      obtain ⟨hv, hne, hdig⟩ := ih (n / 10) hdiv
      refine ⟨?_, ?_, ?_⟩
      · simp only [natToCharsAux, if_neg h10]
        rw [digitsToNat_append, hv]
        have hm : n % 10 < 10 := Nat.mod_lt _ (by omega)
        simp [digitsToNat, charToDigit_digitChar hm]
        omega
      · simp [natToCharsAux, h10]
      · simp only [natToCharsAux, if_neg h10]
        intro c hc
        rcases List.mem_append.mp hc with h | h
        · exact hdig c h
        · simp at h
          subst h
          exact isDigitChar_digitChar (Nat.mod_lt _ (by omega))

/-- `natToChars` reads back to the number it renders. -/
theorem digitsToNat_natToChars (n : Nat) :
    digitsToNat (natToChars n) = n :=
  (natToCharsAux_spec n n le_rfl).1

/-- `natToChars` is never empty. -/
theorem natToChars_ne_nil (n : Nat) : natToChars n ≠ [] :=
  (natToCharsAux_spec n n le_rfl).2.1

/-- Every character of `natToChars` is a digit. -/
theorem natToChars_digits (n : Nat) :
    ∀ c ∈ natToChars n, isDigitChar c = true :=
  (natToCharsAux_spec n n le_rfl).2.2

/-- The digit string of a number below `10 ^ k` has at most `k` digits
(for positive `k`). -/
theorem natToCharsAux_length :
    ∀ fuel n k, n ≤ fuel → n < 10 ^ k → 1 ≤ k →
      (natToCharsAux fuel n).length ≤ k := by
  intro fuel
  induction fuel with
  | zero =>
    intro n k hn _ hk
    interval_cases n
    simpa [natToCharsAux] using hk
  | succ fuel ih =>
    intro n k hn hnk hk
    by_cases h10 : n < 10
    · simpa [natToCharsAux, h10] using hk
    · have hk2 : 2 ≤ k := by
        by_contra hlt
        push_neg at hlt
        have hk1 : k = 1 := by omega
        subst hk1
        norm_num at hnk
        omega
      have hdiv : n / 10 ≤ fuel := by omega
      have hless : n / 10 < 10 ^ (k - 1) := by
        rw [Nat.div_lt_iff_lt_mul (by omega)]
        calc n < 10 ^ k := hnk
        _ = 10 ^ (k - 1) * 10 := by
          rw [← pow_succ]
          congr 1
          omega
      have := ih (n / 10) (k - 1) hdiv hless (by omega)
      simp only [natToCharsAux, if_neg h10, List.length_append,
        List.length_cons, List.length_nil]
      omega

/-- Length bound for `natToChars`. -/
theorem natToChars_length {n k : Nat} (h : n < 10 ^ k) (hk : 1 ≤ k) :
    (natToChars n).length ≤ k :=
  natToCharsAux_length n n k le_rfl h hk

/-- Stripping a suffix character distributes to the right part of an
append when something of the right part survives. -/
theorem stripTrailing_append_of_ne {c : Char} {xs ys : List Char}
    (h : stripTrailing c ys ≠ []) :
    stripTrailing c (xs ++ ys) = xs ++ stripTrailing c ys := by
  unfold stripTrailing at *
  rw [List.reverse_append, List.dropWhile_append]
  have hne : ¬(ys.reverse.dropWhile (fun x => x == c)).isEmpty = true := by
    intro he
    rw [List.isEmpty_iff] at he
    rw [he] at h
    simp at h
  rw [if_neg hne, List.reverse_append, List.reverse_reverse]

/-- Stripping a suffix character skips over a fully stripped right part. -/
theorem stripTrailing_append_of_nil {c : Char} {xs ys : List Char}
    (h : stripTrailing c ys = []) :
    stripTrailing c (xs ++ ys) = stripTrailing c xs := by
  unfold stripTrailing at *
  rw [List.reverse_append, List.dropWhile_append]
  have he : (ys.reverse.dropWhile (fun x => x == c)).isEmpty = true := by
    rw [List.isEmpty_iff]
    have := congrArg List.reverse h
    simpa using this
  rw [if_pos he]

/-- A list whose last element differs from `c` is unchanged by
`stripTrailing c`. -/
theorem stripTrailing_eq_self {c b : Char} {cs : List Char}
    (h : cs.getLast? = some b) (hb : (b == c) = false) :
    stripTrailing c cs = cs := by
  unfold stripTrailing
  have hrev : cs.reverse.head? = some b := by
    rw [List.head?_reverse]; exact h
  obtain ⟨ys, hys⟩ := List.head?_eq_some_iff.mp hrev
  rw [hys, List.dropWhile_cons_of_neg (by simp [hb]), ← hys,
    List.reverse_reverse]

/-- Everything surviving `stripTrailing` was in the original list. -/
theorem mem_stripTrailing {c x : Char} {cs : List Char}
    (h : x ∈ stripTrailing c cs) : x ∈ cs := by
  unfold stripTrailing at h
  rw [List.mem_reverse] at h
  have := (List.dropWhile_sublist (l := cs.reverse)
    (p := fun x => x == c)).subset h
  simpa using this

/-- Every list is its stripped form followed by a run of the stripped
character. -/
theorem stripTrailing_decomp (c : Char) (cs : List Char) :
    ∃ k, cs = stripTrailing c cs ++ List.replicate k c := by
  refine ⟨(cs.reverse.takeWhile (fun x => x == c)).length, ?_⟩
  have htake : cs.reverse.takeWhile (fun x => x == c) =
      List.replicate (cs.reverse.takeWhile (fun x => x == c)).length c := by
    apply List.eq_replicate_of_mem
    intro b hb
    have := List.mem_takeWhile_imp hb
    simpa using this
  calc cs = cs.reverse.reverse := by rw [List.reverse_reverse]
  _ = (cs.reverse.takeWhile (fun x => x == c) ++
        cs.reverse.dropWhile (fun x => x == c)).reverse := by
      rw [List.takeWhile_append_dropWhile]
  _ = stripTrailing c cs ++ (cs.reverse.takeWhile (fun x => x == c)).reverse := by
      rw [List.reverse_append]; rfl
  _ = _ := by rw [htake]; simp

/-- The value of a digit string in terms of its zero-stripped form. -/
theorem digitsToNat_stripTrailing_zero (cs : List Char) :
    ∃ k, cs = stripTrailing '0' cs ++ List.replicate k '0' ∧
      digitsToNat cs = digitsToNat (stripTrailing '0' cs) * 10 ^ k := by
  obtain ⟨k, hk⟩ := stripTrailing_decomp '0' cs
  refine ⟨k, hk, ?_⟩
  conv_lhs => rw [hk]
  rw [digitsToNat_append_zeros]

/-- Removing commas from a grouped list recovers the commaless original. -/
theorem filter_groupRAux (fuel : Nat) :
    ∀ l : List Char,
      (groupRAux fuel l).filter (fun c => c != ',') =
      l.filter (fun c => c != ',') := by
  induction fuel with
  | zero => intro l; rfl
  | succ fuel ih =>
    intro l
    by_cases h3 : l.length ≤ 3
    · simp [groupRAux, h3]
    · rw [groupRAux, if_neg h3, List.filter_append, List.filter_cons]
      have hcomma : ((',' : Char) != ',') = false := by decide
      rw [hcomma, if_neg (by simp)]
      rw [ih (l.drop 3), ← List.filter_append, List.take_append_drop]

/-- Grouping inserts commas without touching the first character. -/
theorem head?_groupRAux (fuel : Nat) (l : List Char) :
    (groupRAux fuel l).head? = l.head? := by
  cases fuel with
  | zero => rfl
  | succ fuel =>
    by_cases h3 : l.length ≤ 3
    · simp [groupRAux, h3]
    · rw [groupRAux, if_neg h3]
      cases l with
      | nil => simp at h3
      | cons a t => simp [List.take]

/-- Removing commas undoes thousands grouping on a comma-free list. -/
theorem filter_groupDigits {cs : List Char}
    (h : ∀ c ∈ cs, (c != ',') = true) :
    (groupDigits cs).filter (fun c => c != ',') = cs := by
  unfold groupDigits
  rw [List.filter_reverse, filter_groupRAux, List.filter_reverse,
    List.reverse_reverse]
  exact List.filter_eq_self.mpr h

/-- Grouping preserves the last character. -/
theorem getLast?_groupDigits (cs : List Char) :
    (groupDigits cs).getLast? = cs.getLast? := by
  unfold groupDigits
  rw [List.getLast?_reverse, head?_groupRAux, List.head?_reverse]

/-- Grouping a nonempty list yields a nonempty list. -/
theorem groupDigits_ne_nil {cs : List Char} (h : cs ≠ []) :
    groupDigits cs ≠ [] := by
  intro he
  have hg := getLast?_groupDigits cs
  rw [he] at hg
  have hnone : cs.getLast? = none := by simpa using hg.symm
  exact h (List.getLast?_eq_none_iff.mp hnone)

/-- A decimal with a non-positive natural exponent denotes a quotient. -/
theorem toRat_neg_exp (m : Int) (k : Nat) :
    PyDecimal.toRat ⟨m, -(k : Int)⟩ = (m : ℚ) / 10 ^ k := by
  unfold PyDecimal.toRat
  rw [zpow_neg, zpow_natCast, div_eq_mul_inv]

/-- The exact decimal product denotes rational multiplication. -/
theorem toRat_rawMul (a b : PyDecimal) :
    (rawMul a b).toRat = a.toRat * b.toRat := by
  unfold rawMul PyDecimal.toRat
  rw [zpow_add₀ (by norm_num : (10 : ℚ) ≠ 0)]
  push_cast
  ring

/-- Cast of the aligning power: for `e ≤ a`,
`(10 : ℚ) ^ (a - e).toNat * 10 ^ e = 10 ^ a` with `zpow` on the right. -/
theorem zpow_align_toNat {e a : Int} (h : e ≤ a) :
    ((10 : ℚ) ^ (a - e).toNat) * (10 : ℚ) ^ e = (10 : ℚ) ^ a := by
  rw [← zpow_natCast (10 : ℚ) (a - e).toNat,
    Int.toNat_of_nonneg (by omega : (0 : Int) ≤ a - e),
    ← zpow_add₀ (by norm_num : (10 : ℚ) ≠ 0)]
  congr 1
  omega

/-- The exact aligned decimal sum denotes rational addition. -/
theorem toRat_rawAdd (a b : PyDecimal) :
    (rawAdd a b).toRat = a.toRat + b.toRat := by
  unfold rawAdd PyDecimal.toRat
  have e1 := zpow_align_toNat (min_le_left a.exp b.exp)
  have e2 := zpow_align_toNat (min_le_right a.exp b.exp)
  push_cast
  calc ((a.mant : ℚ) * 10 ^ (a.exp - min a.exp b.exp).toNat +
          (b.mant : ℚ) * 10 ^ (b.exp - min a.exp b.exp).toNat) *
        (10 : ℚ) ^ min a.exp b.exp
      = (a.mant : ℚ) * ((10 : ℚ) ^ (a.exp - min a.exp b.exp).toNat *
          (10 : ℚ) ^ min a.exp b.exp) +
        (b.mant : ℚ) * ((10 : ℚ) ^ (b.exp - min a.exp b.exp).toNat *
          (10 : ℚ) ^ min a.exp b.exp) := by ring
    _ = (a.mant : ℚ) * (10 : ℚ) ^ a.exp +
        (b.mant : ℚ) * (10 : ℚ) ^ b.exp := by rw [e1, e2]

/-- The exact aligned decimal difference denotes rational subtraction. -/
theorem toRat_rawSub (a b : PyDecimal) :
    (rawSub a b).toRat = a.toRat - b.toRat := by
  unfold rawSub PyDecimal.toRat
  have e1 := zpow_align_toNat (min_le_left a.exp b.exp)
  have e2 := zpow_align_toNat (min_le_right a.exp b.exp)
  push_cast
  calc ((a.mant : ℚ) * 10 ^ (a.exp - min a.exp b.exp).toNat -
          (b.mant : ℚ) * 10 ^ (b.exp - min a.exp b.exp).toNat) *
        (10 : ℚ) ^ min a.exp b.exp
      = (a.mant : ℚ) * ((10 : ℚ) ^ (a.exp - min a.exp b.exp).toNat *
          (10 : ℚ) ^ min a.exp b.exp) -
        (b.mant : ℚ) * ((10 : ℚ) ^ (b.exp - min a.exp b.exp).toNat *
          (10 : ℚ) ^ min a.exp b.exp) := by ring
    _ = (a.mant : ℚ) * (10 : ℚ) ^ a.exp -
        (b.mant : ℚ) * (10 : ℚ) ^ b.exp := by rw [e1, e2]

/-- A digit character is neither exponent marker. -/
theorem digit_not_e {c : Char} (h : isDigitChar c = true) :
    (c != 'E' && c != 'e') = true := by
  obtain ⟨_, h2⟩ := toNat_of_isDigitChar h
  have hE : ('E' : Char).toNat = 69 := by decide
  have he : ('e' : Char).toNat = 101 := by decide
  have hcE : c ≠ 'E' := by
    intro e; rw [e, hE] at h2; omega
  have hce : c ≠ 'e' := by
    intro e; rw [e, he] at h2; omega
  simp [hcE, hce]

/-- The decimal point is neither exponent marker. -/
theorem dot_not_e : (('.' : Char) != 'E' && ('.' : Char) != 'e') = true := by
  decide

/-- On a list with no exponent marker, the full literal parser is the
plain literal parser. -/
theorem parseUnsignedDec_no_e {cs : List Char}
    (h : ∀ c ∈ cs, (c != 'E' && c != 'e') = true) :
    parseUnsignedDec cs = parsePlainDec cs := by
  unfold parseUnsignedDec
  rw [List.dropWhile_eq_nil_iff.mpr h]

/-- Parsing a pure nonempty digit string yields its value at exponent
zero. -/
theorem parsePlainDec_digits {cs : List Char} (hne : cs ≠ [])
    (hd : ∀ c ∈ cs, isDigitChar c = true) :
    parsePlainDec cs = some ⟨digitsToNat cs, 0⟩ := by
  unfold parsePlainDec
  have htake : cs.takeWhile (fun c => c != '.') = cs :=
    List.takeWhile_eq_self_iff.mpr (fun c hc => digit_bne_dot (hd c hc))
  have hdrop : cs.dropWhile (fun c => c != '.') = [] :=
    List.dropWhile_eq_nil_iff.mpr (fun c hc => digit_bne_dot (hd c hc))
  have hie : cs.isEmpty = false := by
    rcases List.exists_cons_of_ne_nil hne with ⟨c, rest, rfl⟩
    rfl
  have hall : cs.all isDigitChar = true := List.all_eq_true.mpr hd
  rw [hdrop]
  simp only [htake, hie, hall]
  simp

/-- Parsing `digits.digits` yields the combined coefficient at the
negated fractional length as exponent. -/
theorem parsePlainDec_digits_frac {I F : List Char} (hne : I ≠ [])
    (hI : ∀ c ∈ I, isDigitChar c = true)
    (hF : ∀ c ∈ F, isDigitChar c = true) :
    parsePlainDec (I ++ '.' :: F) =
      some ⟨digitsToNat I * 10 ^ F.length + digitsToNat F,
        -(F.length : Int)⟩ := by
  unfold parsePlainDec
  have hIpos : ∀ c ∈ I, (fun c => c != '.') c = true :=
    fun c hc => digit_bne_dot (hI c hc)
  have hdot : (('.' : Char) != '.') = false := by decide
  have htake : (I ++ '.' :: F).takeWhile (fun c => c != '.') = I := by
    rw [List.takeWhile_append_of_pos hIpos, List.takeWhile_cons_of_neg
      (by simp [hdot])]
    simp
  have hdrop : (I ++ '.' :: F).dropWhile (fun c => c != '.') = '.' :: F := by
    rw [List.dropWhile_append_of_pos hIpos, List.dropWhile_cons_of_neg
      (by simp [hdot])]
  have hie : I.isEmpty = false := by
    rcases List.exists_cons_of_ne_nil hne with ⟨c, rest, rfl⟩
    rfl
  have hIall : I.all isDigitChar = true := List.all_eq_true.mpr hI
  have hFall : F.all isDigitChar = true := List.all_eq_true.mpr hF
  rw [hdrop]
  simp only [htake, hie, hIall, hFall]
  simp

/-- Parsing a rendered digit string through the full decimal parser. -/
theorem pyDecimalOfChars_digits {cs : List Char} (hne : cs ≠ [])
    (hd : ∀ c ∈ cs, isDigitChar c = true) :
    pyDecimalOfChars? cs = some ⟨digitsToNat cs, 0⟩ := by
  rcases List.exists_cons_of_ne_nil hne with ⟨c, rest, rfl⟩
  have hc : isDigitChar c = true := hd c (by simp)
  rw [pyDecimalOfChars?, if_neg (digit_ne_minus hc),
    if_neg (digit_ne_plus hc),
    parseUnsignedDec_no_e (fun x hx => digit_not_e (hd x hx))]
  exact parsePlainDec_digits hne hd

/-- Parsing a rendered `digits.digits` list through the full parser. -/
theorem pyDecimalOfChars_digits_frac {I F : List Char} (hne : I ≠ [])
    (hI : ∀ c ∈ I, isDigitChar c = true)
    (hF : ∀ c ∈ F, isDigitChar c = true) :
    pyDecimalOfChars? (I ++ '.' :: F) =
      some ⟨digitsToNat I * 10 ^ F.length + digitsToNat F,
        -(F.length : Int)⟩ := by
  rcases List.exists_cons_of_ne_nil hne with ⟨c, rest, rfl⟩
  have hc : isDigitChar c = true := hI c (by simp)
  have hnoe : ∀ x ∈ (c :: rest) ++ '.' :: F,
      (x != 'E' && x != 'e') = true := by
    intro x hx
    rcases List.mem_append.mp hx with hx | hx
    · exact digit_not_e (hI x hx)
    · rcases List.mem_cons.mp hx with rfl | hx
      · exact dot_not_e
      · exact digit_not_e (hF x hx)
  rw [List.cons_append, pyDecimalOfChars?, if_neg (digit_ne_minus hc),
    if_neg (digit_ne_plus hc), ← List.cons_append,
    parseUnsignedDec_no_e hnoe]
  exact parsePlainDec_digits_frac hne hI hF

/-- All characters of a padded fractional digit string are digits. -/
theorem padZeros_digits (k : Nat) (n : Nat) :
    ∀ c ∈ padZeros k (natToChars n), isDigitChar c = true := by
  intro c hc
  rcases List.mem_append.mp hc with h | h
  · rw [List.eq_of_mem_replicate h]
    decide
  · exact natToChars_digits n c h

/-- The last character of a grouped digit rendering is a digit. -/
theorem groupDigits_natToChars_getLast (n : Nat) :
    ∃ b, (groupDigits (natToChars n)).getLast? = some b ∧
      isDigitChar b = true := by
  have hne := natToChars_ne_nil n
  refine ⟨(natToChars n).getLast hne, ?_, ?_⟩
  · rw [getLast?_groupDigits]
    exact List.getLast?_eq_getLast _ hne
  · exact natToChars_digits n _ (List.getLast_mem hne)

/-- A digit-led grouped rendering survives `rstrip('.')` unchanged. -/
theorem stripTrailing_dot_groupDigits (n : Nat) :
    stripTrailing '.' (groupDigits (natToChars n)) =
      groupDigits (natToChars n) := by
  obtain ⟨b, hb, hbd⟩ := groupDigits_natToChars_getLast n
  refine stripTrailing_eq_self hb ?_
  have := digit_bne_dot hbd
  simpa [bne] using this

/-- A decimal with exponent zero denotes its coefficient. -/
theorem toRat_zero_exp (m : Int) : PyDecimal.toRat ⟨m, 0⟩ = (m : ℚ) := by
  unfold PyDecimal.toRat
  simp

/-- Display formatting of a non-negative decimal that Python renders in
plain fixed-point form with a fractional part (negative exponent,
adjusted exponent at least -6) loses no information: parsing the
trimmed, comma-stripped rendering recovers the exact value.  This is
the sense in which only fractional noise is removed by
`rstrip('0').rstrip('.')` when a decimal point is present and no
exponent marker is. -/
theorem pyFormatStrip_roundtrip (d : PyDecimal) (hexp : d.exp < 0)
    (hm : 0 ≤ d.mant)
    (hplain : (-6 : Int) < d.exp + ((natToChars d.mant.toNat).length : Int)) :
    (pyDecimalOfString? (stripCommas (pyFormatStrip d))).map PyDecimal.toRat =
      some d.toRat := by
  obtain ⟨m, e⟩ := d
  simp only at hexp hm hplain
  set M := m.toNat with hMdef
  set s := (-e).toNat with hsdef
  have hs : 0 < s := by omega
  have he : e = -(s : Int) := by omega
  have hmant : (m : ℚ) = (M : ℚ) := by
    rw [hMdef]
    exact_mod_cast (Int.toNat_of_nonneg hm).symm
  have hfmt : pyFormat ⟨m, e⟩ = pyFormatN M s := by
    unfold pyFormat
    rw [if_neg (show ¬((⟨m, e⟩ : PyDecimal).mant < 0) from not_lt.mpr hm)]
    unfold pyFormatPos
    rw [if_pos (show (⟨m, e⟩ : PyDecimal).exp ≤ 0 ∧
      (-6 : Int) < (⟨m, e⟩ : PyDecimal).exp +
        ((natToChars (⟨m, e⟩ : PyDecimal).mant.toNat).length : Int) from
      ⟨le_of_lt hexp, hplain⟩)]
  set ip := M / 10 ^ s with hipdef
  set fr := M % 10 ^ s with hfrdef
  set I := natToChars ip with hIdef
  set A := groupDigits I with hAdef
  set F := padZeros s (natToChars fr) with hFdef
  have hfmtN : pyFormatN M s = A ++ '.' :: F := by
    unfold pyFormatN
    rw [if_neg (by omega)]
  have hIne : I ≠ [] := natToChars_ne_nil ip
  have hIdig : ∀ c ∈ I, isDigitChar c = true := natToChars_digits ip
  have hFdig : ∀ c ∈ F, isDigitChar c = true := padZeros_digits s fr
  have hfrlt : fr < 10 ^ s := Nat.mod_lt _ (by positivity)
  have hFlen : F.length = s :=
    padZeros_length (natToChars_length hfrlt (by omega))
  have hFval : digitsToNat F = fr := by
    rw [hFdef, digitsToNat_padZeros, digitsToNat_natToChars]
  have hIval : digitsToNat I = ip := digitsToNat_natToChars ip
  have hM : M = ip * 10 ^ s + fr := by
    calc M = 10 ^ s * (M / 10 ^ s) + M % 10 ^ s :=
      (Nat.div_add_mod M (10 ^ s)).symm
    _ = ip * 10 ^ s + fr := by rw [hipdef, hfrdef]; ring
  obtain ⟨k, hdecomp, hval⟩ := digitsToNat_stripTrailing_zero F
  set F' := stripTrailing '0' F with hF'def
  have hklen : F.length = F'.length + k := by
    conv_lhs => rw [hdecomp]
    simp
  have hF'dig : ∀ c ∈ F', isDigitChar c = true :=
    fun c hc => hFdig c (mem_stripTrailing hc)
  have hIcommafree : ∀ c ∈ I, (c != ',') = true :=
    fun c hc => digit_bne_comma (hIdig c hc)
  have hfilterA : A.filter (fun c => c != ',') = I :=
    filter_groupDigits hIcommafree
  by_cases hF'nil : F' = []
  · -- all fractional digits were zeros: the rendering is the integer part
    have h0 : digitsToNat F' = 0 := by rw [hF'nil]; rfl
    have hfr0 : fr = 0 := by
      rw [← hFval, hval, h0, Nat.zero_mul]
    have hstrip0 : stripTrailing '0' (A ++ '.' :: F) = A ++ ['.'] := by
      have hsplit : A ++ '.' :: F = (A ++ ['.']) ++ F := by simp
      rw [hsplit, stripTrailing_append_of_nil hF'nil]
      exact stripTrailing_eq_self (List.getLast?_concat A) (by decide)
    have hstripdot : stripTrailing '.' (A ++ ['.']) = A := by
      rw [stripTrailing_append_of_nil (by decide), hAdef, hIdef]
      exact stripTrailing_dot_groupDigits ip
    have hchars : (stripCommas (pyFormatStrip ⟨m, e⟩)).data = I := by
      show (stripTrailing '.' (stripTrailing '0'
        (pyFormat ⟨m, e⟩))).filter (fun c => c != ',') = I
      rw [hfmt, hfmtN, hstrip0, hstripdot, hfilterA]
    show (pyDecimalOfChars? (stripCommas (pyFormatStrip ⟨m, e⟩)).data).map
      PyDecimal.toRat = _
    rw [hchars, pyDecimalOfChars_digits hIne hIdig, hIval]
    show some (PyDecimal.toRat ⟨(ip : Int), 0⟩) =
      some (PyDecimal.toRat ⟨m, e⟩)
    congr 1
    rw [toRat_zero_exp, he, toRat_neg_exp]
    rw [hmant, eq_div_iff (by positivity : ((10 : ℚ) ^ s) ≠ 0)]
    have : (M : ℚ) = (ip : ℚ) * 10 ^ s := by
      rw [hM, hfr0]
      push_cast
      ring
    rw [this]
    push_cast
    ring
  · -- some fractional digit survives: rendering is int part, dot, digits
    have hstrip0 : stripTrailing '0' (A ++ '.' :: F) = A ++ '.' :: F' := by
      have hsplit : A ++ '.' :: F = (A ++ ['.']) ++ F := by simp
      have hsplit' : A ++ '.' :: F' = (A ++ ['.']) ++ F' := by simp
      rw [hsplit, stripTrailing_append_of_ne hF'nil, hsplit']
    have hF'last : ∃ b, F'.getLast? = some b ∧ isDigitChar b = true := by
      refine ⟨F'.getLast hF'nil, List.getLast?_eq_getLast _ hF'nil, ?_⟩
      exact hF'dig _ (List.getLast_mem hF'nil)
    obtain ⟨b, hbget, hbd⟩ := hF'last
    have hstripdot : stripTrailing '.' (A ++ '.' :: F') = A ++ '.' :: F' := by
      refine stripTrailing_eq_self (b := b) ?_ ?_
      · rw [List.getLast?_append]
        have : ('.' :: F').getLast? = some b := by
          rw [List.getLast?_cons, hbget]
          rfl
        rw [this]
        rfl
      · have := digit_bne_dot hbd
        simpa [bne] using this
    have hfilter : (A ++ '.' :: F').filter (fun c => c != ',') =
        I ++ '.' :: F' := by
      rw [List.filter_append, hfilterA, List.filter_cons]
      have hdot : (('.' : Char) != ',') = true := by decide
      rw [if_pos hdot]
      have hfid : List.filter (fun c => c != ',') F' = F' :=
        List.filter_eq_self.mpr (fun c hc => digit_bne_comma (hF'dig c hc))
      rw [hfid]
    have hchars : (stripCommas (pyFormatStrip ⟨m, e⟩)).data = I ++ '.' :: F' := by
      show (stripTrailing '.' (stripTrailing '0'
        (pyFormat ⟨m, e⟩))).filter (fun c => c != ',') = I ++ '.' :: F'
      rw [hfmt, hfmtN, hstrip0, hstripdot, hfilter]
    show (pyDecimalOfChars? (stripCommas (pyFormatStrip ⟨m, e⟩)).data).map
      PyDecimal.toRat = _
    rw [hchars, pyDecimalOfChars_digits_frac hIne hIdig hF'dig, hIval]
    show some (PyDecimal.toRat
      ⟨(ip : Int) * 10 ^ F'.length + (digitsToNat F' : Int),
        -(F'.length : Int)⟩) =
      some (PyDecimal.toRat ⟨m, e⟩)
    congr 1
    rw [toRat_neg_exp, he, toRat_neg_exp]
    rw [hmant, div_eq_div_iff (by positivity : ((10 : ℚ) ^ F'.length) ≠ 0)
      (by positivity : ((10 : ℚ) ^ s) ≠ 0)]
    have hMQ : (M : ℚ) = (ip : ℚ) * 10 ^ s + (digitsToNat F' : ℚ) * 10 ^ k := by
      rw [hM, ← hFval, hval]
      push_cast
      ring
    have hpow : (10 : ℚ) ^ s = 10 ^ F'.length * 10 ^ k := by
      rw [← pow_add]
      congr 1
      omega
    rw [hMQ]
    push_cast
    linear_combination ((digitsToNat F' : ℚ)) * hpow

/-- A digit string parses back through the integer digit parser. -/
theorem parseNatDigits_natToChars (n : Nat) :
    parseNatDigits? (natToChars n) = some n := by
  unfold parseNatDigits?
  have hie : (natToChars n).isEmpty = false := by
    rcases List.exists_cons_of_ne_nil (natToChars_ne_nil n) with ⟨c, rest, h⟩
    rw [h]
    rfl
  have hall : (natToChars n).all isDigitChar = true :=
    List.all_eq_true.mpr (natToChars_digits n)
  rw [hie, hall]
  simp [digitsToNat_natToChars]

/-- `dropWhile` is the identity on a list none of whose elements satisfy
the predicate. -/
theorem dropWhile_eq_self_of_all {α : Type} {p : α → Bool} {l : List α}
    (h : ∀ c ∈ l, p c = false) : l.dropWhile p = l := by
  cases l with
  | nil => rfl
  | cons a t =>
    exact List.dropWhile_cons_of_neg (by simp [h a (List.mem_cons_self a t)])

/-- Stripping a rendered value plus the trailing newline written by
`print` recovers the rendered value (no character of which is
whitespace). -/
theorem pyStripChars_append_nl {cs : List Char}
    (h : ∀ c ∈ cs, isWsChar c = false) :
    pyStripChars (cs ++ ['\n']) = cs := by
  cases cs with
  | nil => decide
  | cons a t =>
    unfold pyStripChars
    have ha : isWsChar a = false := h a (List.mem_cons_self a t)
    rw [show (a :: t) ++ ['\n'] = a :: (t ++ ['\n']) from rfl,
      List.dropWhile_cons_of_neg (by simp [ha]), List.reverse_cons,
      List.reverse_append]
    have hnl : isWsChar '\n' = true := by decide
    have hrest : ∀ c ∈ t.reverse ++ [a], isWsChar c = false := by
      intro c hc
      rcases List.mem_append.mp hc with hc | hc
      · exact h c (List.mem_cons_of_mem a (List.mem_reverse.mp hc))
      · rw [List.mem_singleton.mp hc]
        exact ha
    rw [show (['\n'].reverse ++ t.reverse) ++ [a] =
      '\n' :: (t.reverse ++ [a]) from by simp,
      List.dropWhile_cons_of_pos (by simp [hnl]),
      dropWhile_eq_self_of_all hrest]
    simp

/-- Characters of a rendered integer (optional minus sign, digits) are
never whitespace. -/
theorem intToString_no_ws (n : Int) :
    ∀ c ∈ (intToString n).data, isWsChar c = false := by
  intro c hc
  unfold intToString at hc
  by_cases hneg : n < 0
  · rw [if_pos hneg] at hc
    have hc' : c = '-' ∨ c ∈ natToChars n.natAbs := by simpa using hc
    rcases hc' with rfl | hc'
    · decide
    · exact digit_not_ws (natToChars_digits _ c hc')
  · rw [if_neg hneg] at hc
    have hc' : c ∈ natToChars n.toNat := by simpa using hc
    exact digit_not_ws (natToChars_digits _ c hc')

/-- Round trip: the counter value `print` writes is the value the next
run reads back with `int(file contents.strip())`. -/
theorem pyParseInt_roundtrip (n : Int) :
    pyParseInt? (pyStrip (intToString n ++ "\n")) = some n := by
  show pyIntOfChars? (pyStripChars ((intToString n ++ "\n")).data) = some n
  rw [String.data_append, show ("\n" : String).data = ['\n'] from rfl,
    pyStripChars_append_nl (intToString_no_ws n)]
  unfold intToString
  by_cases hneg : n < 0
  · rw [if_pos hneg]
    show pyIntOfChars? ('-' :: natToChars n.natAbs) = some n
    rw [pyIntOfChars?, if_pos rfl, parseNatDigits_natToChars]
    have : ((n.natAbs : Int)) = -n := by omega
    simp [this]
  · rw [if_neg hneg]
    show pyIntOfChars? (natToChars n.toNat) = some n
    rcases List.exists_cons_of_ne_nil (natToChars_ne_nil n.toNat) with
      ⟨c, rest, hD⟩
    have hc : isDigitChar c = true := by
      apply natToChars_digits n.toNat
      rw [hD]
      exact List.mem_cons_self c rest
    rw [hD, pyIntOfChars?, if_neg (digit_ne_minus hc),
      if_neg (digit_ne_plus hc), ← hD, parseNatDigits_natToChars]
    have : ((n.toNat : Int)) = n := by omega
    simp [this]

/-- `add_section` preserves the all-sections-nonempty invariant. -/
theorem addSection_ne_nil {doc : DataFile} {cur : PySection}
    (h : ∀ s ∈ doc, s ≠ []) : ∀ s ∈ addSection doc cur, s ≠ [] := by
  intro s hs
  unfold addSection at hs
  by_cases hc : cur.isEmpty
  · rw [if_pos hc] at hs
    exact h s hs
  · rw [if_neg hc] at hs
    rcases List.mem_append.mp hs with hs | hs
    · exact h s hs
    · rw [List.mem_singleton.mp hs]
      simpa [List.isEmpty_iff] using hc

/-- The parser loop preserves the all-sections-nonempty invariant. -/
theorem parseLoop_ne_nil :
    ∀ (rest : List String) (doc : DataFile) (cur : PySection),
      (∀ s ∈ doc, s ≠ []) → ∀ s ∈ parseLoop doc cur rest, s ≠ [] := by
  intro rest
  induction rest with
  | nil =>
    intro doc cur h s hs
    exact addSection_ne_nil h s hs
  | cons line rest ih =>
    intro doc cur h s hs
    rw [parseLoop] at hs
    by_cases hblank : pyStrip line = ""
    · rw [if_pos hblank] at hs
      exact ih doc cur h s hs
    · rw [if_neg hblank] at hs
      by_cases hstar : (pyStrip line).data.head? = some '*'
      · rw [if_pos hstar] at hs
        exact ih (addSection doc cur) [] (addSection_ne_nil h) s hs
      · rw [if_neg hstar] at hs
        exact ih doc (cur ++ [Record.ofLine (pyStrip line)]) h s hs

/-- The cells of a fixed column across rows rendered with `first_row`
false are all suppressed. -/
theorem colCells_writeRows_none {owners : String → Option String}
    {n : Nat} {flags : SameFlags} {j : Nat}
    (hnone : ∀ r, (rowCells owners n flags false r).getD j none = none) :
    ∀ rs, colCells j (writeRows owners n flags false rs) =
      List.replicate rs.length none := by
  intro rs
  induction rs with
  | nil => rfl
  | cons r rest ih =>
    show (rowCells owners n flags false r).getD j none ::
      colCells j (writeRows owners n flags false rest) = _
    rw [hnone r, ih, List.length_cons, List.replicate_succ]

/-- The cells of a fixed column across rows are all plain when the
row renderer emits a plain cell regardless of the first-row flag. -/
theorem colCells_writeRows_plain {owners : String → Option String}
    {n : Nat} {flags : SameFlags} {j : Nat} {g : TransRecord → String}
    (hplain : ∀ first r, (rowCells owners n flags first r).getD j none =
      some (Cell.plain (g r))) :
    ∀ (rs : List TransRecord) (first : Bool),
      colCells j (writeRows owners n flags first rs) =
        rs.map (fun r => some (Cell.plain (g r))) := by
  intro rs
  induction rs with
  | nil => intro first; rfl
  | cons r rest ih =>
    intro first
    show (rowCells owners n flags first r).getD j none ::
      colCells j (writeRows owners n flags false rest) = _
    rw [hplain first r, ih false, List.map_cons]

/-- Column behaviour of `write_section` for a column whose per-row cell
is `write_cell` of a fixed sameness flag and a fixed attribute. -/
theorem colCells_section_generic (owners : String → Option String)
    (rs : List TransRecord) (hne : rs ≠ []) (j : Nat)
    (g : TransRecord → String)
    (hrow : ∀ first r,
      (rowCells owners rs.length (sameFlags rs) first r).getD j none =
        write_cell first rs.length (is_same_values (rs.map g)) (g r)) :
    (is_same_values (rs.map g) = true →
      colCells j (writeSection owners rs) =
        some (Cell.spanning rs.length (g (rs.headD default))) ::
          List.replicate (rs.length - 1) none) ∧
    (is_same_values (rs.map g) = false →
      colCells j (writeSection owners rs) =
        rs.map (fun r => some (Cell.plain (g r)))) := by
  constructor
  · intro hsame
    rcases List.exists_cons_of_ne_nil hne with ⟨r, rest, rfl⟩
    show (rowCells owners (r :: rest).length (sameFlags (r :: rest))
        true r).getD j none ::
      colCells j (writeRows owners (r :: rest).length
        (sameFlags (r :: rest)) false rest) = _
    rw [hrow true r, hsame]
    rw [colCells_writeRows_none (fun r' => by
      rw [hrow false r', hsame]
      rfl)]
    rfl
  · intro hdiff
    unfold writeSection
    rw [colCells_writeRows_plain (fun first r' => by
      rw [hrow first r', hdiff]
      cases first <;> rfl)]

/-- The `available` value computed by the final draft is
`cred_limit_scaled - (saldo + open_del_scaled)` of the same record. -/
theorem derivedValues_shape (r : Record) (d : Derived)
    (h : derivedValues? r = some d) :
    d.available = d.cred_limit_scaled.sub (d.saldo.add d.open_del_scaled) := by
  unfold derivedValues? at h
  obtain ⟨odS, hodS, h⟩ := Option.bind_eq_some.mp h
  obtain ⟨rcS, hrcS, h⟩ := Option.bind_eq_some.mp h
  obtain ⟨slS, hslS, h⟩ := Option.bind_eq_some.mp h
  obtain ⟨clS, hclS, h⟩ := Option.bind_eq_some.mp h
  obtain ⟨od, hod, h⟩ := Option.bind_eq_some.mp h
  obtain ⟨rc, hrc, h⟩ := Option.bind_eq_some.mp h
  obtain ⟨sl, hsl, h⟩ := Option.bind_eq_some.mp h
  obtain ⟨cl, hcl, h⟩ := Option.bind_eq_some.mp h
  obtain rfl := Option.some_inj.mp h
  rfl

/-- The earlier draft computes the same parsed decimals and scalings as
the final draft, differing only in the grouping of `available`. -/
theorem derivedValuesV2_eq (r : Record) (d1 : Derived)
    (h : derivedValues? r = some d1) :
    derivedValuesV2? r =
      some ⟨d1.open_del_scaled, d1.saldo, d1.cred_limit_scaled,
        (d1.cred_limit_scaled.sub d1.saldo).add d1.open_del_scaled⟩ := by
  unfold derivedValues? at h
  unfold derivedValuesV2?
  obtain ⟨odS, hodS, h⟩ := Option.bind_eq_some.mp h
  obtain ⟨rcS, hrcS, h⟩ := Option.bind_eq_some.mp h
  obtain ⟨slS, hslS, h⟩ := Option.bind_eq_some.mp h
  obtain ⟨clS, hclS, h⟩ := Option.bind_eq_some.mp h
  obtain ⟨od, hod, h⟩ := Option.bind_eq_some.mp h
  obtain ⟨rc, hrc, h⟩ := Option.bind_eq_some.mp h
  obtain ⟨sl, hsl, h⟩ := Option.bind_eq_some.mp h
  obtain ⟨cl, hcl, h⟩ := Option.bind_eq_some.mp h
  obtain rfl := Option.some_inj.mp h
  simp [hodS, hrcS, hslS, hclS, hod, hrc, hsl, hcl]

/-- C1: the claim states that a line with fewer than 11 tab-split fields
is dropped with a diagnostic and its Record is never added to the
section.  The code prints the diagnostic but, because `Record.__init__`
catches the `IndexError` itself, the partially-initialised record is
still appended by `Parser.parse`: on the two-field line `"s1\t4711"` the
parsed document contains a section holding exactly that incomplete
record. -/
theorem c1_short_line_record_still_added :
    (splitFields "s1\t4711").length = 2 ∧
    (Record.ofLine "s1\t4711").isComplete = false ∧
    parse ["header line one", "header line two", "s1\t4711"] =
      [[Record.ofLine "s1\t4711"]] := by
  decide

/-- C2: for every section and each of the ten display columns, if all
records share the column value, exactly one cell is emitted for it, on
the first row, spanning the record count, and nothing on later rows; if
the values differ, a plain cell is emitted on every row. -/
theorem c2_rowspan_merge :
    ∀ (owners : String → Option String) (rs : List TransRecord),
      rs ≠ [] → ∀ p ∈ displayColumns,
      (is_same_values (rs.map p.2) = true →
        colCells p.1 (writeSection owners rs) =
          some (Cell.spanning rs.length (p.2 (rs.headD default))) ::
            List.replicate (rs.length - 1) none) ∧
      (is_same_values (rs.map p.2) = false →
        colCells p.1 (writeSection owners rs) =
          rs.map (fun r => some (Cell.plain (p.2 r)))) := by
  intro owners rs hne p hp
  fin_cases hp
  all_goals
    exact colCells_section_generic owners rs hne _ _ (fun first r => rfl)

/-- Witness for C2 at a concrete two-record section: the account column
is uniform and merges into one spanning cell; the name column differs
and renders a plain cell per row. -/
theorem c2_rowspan_merge_witness :
    colCells 0 (writeSection (fun _ => none)
      [⟨"4711", "x", "p", "c", "o", "s", "l", "a", "u", "d"⟩,
       ⟨"4711", "y", "p", "c", "o", "s", "l", "a", "u", "d"⟩]) =
      [some (Cell.spanning 2 "4711"), none] ∧
    colCells 1 (writeSection (fun _ => none)
      [⟨"4711", "x", "p", "c", "o", "s", "l", "a", "u", "d"⟩,
       ⟨"4711", "y", "p", "c", "o", "s", "l", "a", "u", "d"⟩]) =
      [some (Cell.plain "x"), some (Cell.plain "y")] := by
  constructor
  · exact (c2_rowspan_merge (fun _ => none) _ (by simp)
      (0, fun r => r.cred_acct) (List.mem_cons_self _ _)).1 (by decide)
  · exact (c2_rowspan_merge (fun _ => none) _ (by simp)
      (1, fun r => r.name1)
      (List.mem_cons_of_mem _ (List.mem_cons_self _ _))).2 (by decide)

/-- C3: the parser drops the first two lines, skips blank lines, flushes
the current section at a `*`-prefixed trimmed line (keeping it only if
non-empty), appends a Record for every other line, and flushes the last
section at end of input under the same non-empty rule. -/
theorem c3_parser_line_handling :
    (∀ lines : List String, parse lines = parseLoop [] [] (lines.drop 2)) ∧
    (∀ (l1 l2 : String) (rest : List String),
      (l1 :: l2 :: rest).drop 2 = rest) ∧
    (∀ (doc : DataFile) (cur : PySection) (line : String)
        (rest : List String),
      pyStrip line = "" →
        parseLoop doc cur (line :: rest) = parseLoop doc cur rest) ∧
    (∀ (doc : DataFile) (cur : PySection) (line : String)
        (rest : List String),
      pyStrip line ≠ "" → (pyStrip line).data.head? = some '*' →
        parseLoop doc cur (line :: rest) =
          parseLoop (addSection doc cur) [] rest) ∧
    (∀ (doc : DataFile) (cur : PySection) (line : String)
        (rest : List String),
      pyStrip line ≠ "" → (pyStrip line).data.head? ≠ some '*' →
        parseLoop doc cur (line :: rest) =
          parseLoop doc (cur ++ [Record.ofLine (pyStrip line)]) rest) ∧
    (∀ (doc : DataFile) (cur : PySection),
      parseLoop doc cur [] = addSection doc cur) ∧
    (∀ (doc : DataFile) (cur : PySection),
      cur ≠ [] → addSection doc cur = doc ++ [cur]) ∧
    (∀ doc : DataFile, addSection doc [] = doc) := by
  refine ⟨fun lines => rfl, fun l1 l2 rest => rfl, ?_, ?_, ?_,
    fun doc cur => rfl, ?_, fun doc => rfl⟩
  · intro doc cur line rest hblank
    rw [parseLoop, if_pos hblank]
  · intro doc cur line rest hblank hstar
    rw [parseLoop, if_neg hblank, if_pos hstar]
  · intro doc cur line rest hblank hstar
    rw [parseLoop, if_neg hblank, if_neg hstar]
  · intro doc cur hcur
    unfold addSection
    rw [if_neg (by simpa [List.isEmpty_iff] using hcur)]

/-- Witness for C3: the three line rules applied at concrete lines. -/
theorem c3_parser_line_handling_witness :
    (parseLoop [] [] ["  "] = parseLoop [] [] []) ∧
    (parseLoop [] [Record.ofLine "a"] ["* total"] =
      parseLoop (addSection [] [Record.ofLine "a"]) [] []) ∧
    (parseLoop [] [] ["a\tb"] =
      parseLoop [] ([] ++ [Record.ofLine (pyStrip "a\tb")]) []) ∧
    (addSection [] [Record.ofLine "a"] = [] ++ [[Record.ofLine "a"]]) := by
  refine ⟨c3_parser_line_handling.2.2.1 [] [] "  " [] (by decide),
    c3_parser_line_handling.2.2.2.1 [] [Record.ofLine "a"] "* total" []
      (by decide) (by decide),
    c3_parser_line_handling.2.2.2.2.1 [] [] "a\tb" [] (by decide)
      (by decide),
    c3_parser_line_handling.2.2.2.2.2.2.1 [] [Record.ofLine "a"]
      (by decide)⟩

/-- C4: on raw fields open_del `1.5`, receivables `10`, special_liab
`2`, cred_limit `20`, the derived values are open_del_scaled 1500,
saldo 12, cred_limit_scaled 20000 and available
`20000 - (12 + 1500) = 18488`. -/
theorem c4_derived_arithmetic :
    (derivedValues? sampleRecord).map
      (fun d => (d.open_del_scaled.toRat, d.saldo.toRat,
        d.cred_limit_scaled.toRat, d.available.toRat)) =
      some (1500, 12, 20000, 18488) := by
  rw [show derivedValues? sampleRecord =
    some ⟨⟨15000, -1⟩, ⟨12, 0⟩, ⟨20000, 0⟩, ⟨184880, -1⟩⟩ from by decide]
  show some (PyDecimal.toRat ⟨15000, -1⟩, PyDecimal.toRat ⟨12, 0⟩,
    PyDecimal.toRat ⟨20000, 0⟩, PyDecimal.toRat ⟨184880, -1⟩) = _
  norm_num [PyDecimal.toRat]

/-- C5: every section stored in a parsed document is non-empty, because
`add_section` discards empty sections.  The further consequence claimed
— that a section with zero valid records is never present — fails on
the code: a line with too few fields still yields a (partial) record,
so a section whose only record is invalid is kept. -/
theorem c5_sections_nonempty_but_invalid_section_kept :
    (∀ lines : List String, ∀ sec ∈ parse lines, sec ≠ []) ∧
    (parse ["h1", "h2", "x\ty", "*"] = [[Record.ofLine "x\ty"]] ∧
      (Record.ofLine "x\ty").isComplete = false) := by
  refine ⟨?_, by decide, by decide⟩
  intro lines sec hs
  exact parseLoop_ne_nil (lines.drop 2) [] []
    (fun s hs' => absurd hs' (List.not_mem_nil s)) sec hs

/-- Witness for C5: the invariant applied to a concrete parse. -/
theorem c5_sections_nonempty_witness :
    [Record.ofLine "a\tb\tc"] ≠ [] :=
  c5_sections_nonempty_but_invalid_section_kept.1
    ["h1", "h2", "a\tb\tc"] [Record.ofLine "a\tb\tc"] (by decide)

/-- C6 counterexample: with a 29-digit credit limit and open deliveries
`1`, the scaled credit limit rounds to the 28-digit context precision
and the subsequent additions and subtractions of 1000 are absorbed by
the same rounding, so both drafts compute the identical `available`
although the scaled open deliveries are 1000, not zero — refuting the
claim's for-every-record biconditional and exact-difference statement. -/
theorem c6_rounding_counterexample :
    (derivedValues? roundingSampleRecord).map
        (fun d => (d.open_del_scaled, d.available)) =
      some (⟨1000, 0⟩, ⟨1234567890123456789012345679, 4⟩) ∧
    (derivedValuesV2? roundingSampleRecord).map (fun d => d.available) =
      some ⟨1234567890123456789012345679, 4⟩ ∧
    PyDecimal.toRat ⟨1000, 0⟩ ≠ 0 := by
  refine ⟨by decide, by decide, ?_⟩
  norm_num [PyDecimal.toRat]

/-- Unfolding equation for rounded decimal addition. -/
theorem PyDecimal.add_def (a b : PyDecimal) :
    PyDecimal.add a b = contextRound (rawAdd a b) := rfl

/-- Unfolding equation for rounded decimal subtraction. -/
theorem PyDecimal.sub_def (a b : PyDecimal) :
    PyDecimal.sub a b = contextRound (rawSub a b) := rfl

/-- C6 (amended): for every record on which both drafts succeed and
whose four `available` additions/subtractions incur no context rounding
(their exact results already fit the 28-digit precision), the two
drafts' `available` values are equal exactly when the scaled open
deliveries are zero, and otherwise differ by exactly twice the scaled
open deliveries.  Without the no-rounding condition the difference can
vanish for non-zero open deliveries, as the counterexample shows. -/
theorem c6_available_grouping_amended :
    ∀ (r : Record) (d1 d2 : Derived),
      derivedValues? r = some d1 → derivedValuesV2? r = some d2 →
      contextRound (rawAdd d1.saldo d1.open_del_scaled) =
        rawAdd d1.saldo d1.open_del_scaled →
      contextRound (rawSub d1.cred_limit_scaled
          (rawAdd d1.saldo d1.open_del_scaled)) =
        rawSub d1.cred_limit_scaled
          (rawAdd d1.saldo d1.open_del_scaled) →
      contextRound (rawSub d1.cred_limit_scaled d1.saldo) =
        rawSub d1.cred_limit_scaled d1.saldo →
      contextRound (rawAdd (rawSub d1.cred_limit_scaled d1.saldo)
          d1.open_del_scaled) =
        rawAdd (rawSub d1.cred_limit_scaled d1.saldo)
          d1.open_del_scaled →
      ((d1.available.toRat = d2.available.toRat ↔
        d1.open_del_scaled.toRat = 0) ∧
       d2.available.toRat - d1.available.toRat =
        2 * d1.open_del_scaled.toRat) := by
  intro r d1 d2 h1 h2 hA hB hC hD
  rw [derivedValuesV2_eq r d1 h1] at h2
  obtain rfl := Option.some_inj.mp h2
  have hv1 : d1.available.toRat =
      d1.cred_limit_scaled.toRat -
        (d1.saldo.toRat + d1.open_del_scaled.toRat) := by
    rw [derivedValues_shape r d1 h1, PyDecimal.sub_def, PyDecimal.add_def,
      hA, hB, toRat_rawSub, toRat_rawAdd]
  have hv2 : ((d1.cred_limit_scaled.sub d1.saldo).add
      d1.open_del_scaled).toRat =
      d1.cred_limit_scaled.toRat - d1.saldo.toRat +
        d1.open_del_scaled.toRat := by
    rw [PyDecimal.add_def, PyDecimal.sub_def, hC, hD, toRat_rawAdd,
      toRat_rawSub]
  show (d1.available.toRat =
      ((d1.cred_limit_scaled.sub d1.saldo).add
        d1.open_del_scaled).toRat ↔
    d1.open_del_scaled.toRat = 0) ∧ _
  rw [hv1, hv2]
  constructor
  · constructor
    · intro h
      linarith
    · intro h
      rw [h]
      ring
  · ring

/-- Witness for C6 at the sample record: 18488 versus 21488, a gap of
exactly `2 × 1500`, with every rounding step exact. -/
theorem c6_available_grouping_witness :
    ((PyDecimal.toRat ⟨184880, -1⟩ = PyDecimal.toRat ⟨214880, -1⟩ ↔
      PyDecimal.toRat ⟨15000, -1⟩ = 0) ∧
     PyDecimal.toRat ⟨214880, -1⟩ - PyDecimal.toRat ⟨184880, -1⟩ =
      2 * PyDecimal.toRat ⟨15000, -1⟩) :=
  c6_available_grouping_amended sampleRecord
    ⟨⟨15000, -1⟩, ⟨12, 0⟩, ⟨20000, 0⟩, ⟨184880, -1⟩⟩
    ⟨⟨15000, -1⟩, ⟨12, 0⟩, ⟨20000, 0⟩, ⟨214880, -1⟩⟩
    (by decide) (by decide) (by decide) (by decide) (by decide)
    (by decide)

/-- C7: the rendered owner cell holds the directory entry for the
record's credit account when present, and the sentinel `UNKNOWN` when
absent; position 12 of every rendered row is exactly that owner cell. -/
theorem c7_owner_lookup :
    ∀ (owners : String → Option String) (acct : String),
      (∀ name, owners acct = some name →
        ownerCellValue owners acct = name) ∧
      (owners acct = none → ownerCellValue owners acct = "UNKNOWN") ∧
      (∀ (n : Nat) (flags : SameFlags) (first : Bool) (r : TransRecord),
        (rowCells owners n flags first r).getD 12 none =
          write_cell first n flags.cred_acct
            (ownerCellValue owners r.cred_acct)) := by
  intro owners acct
  refine ⟨?_, ?_, fun n flags first r => rfl⟩
  · intro name h
    unfold ownerCellValue
    rw [h]
  · intro h
    unfold ownerCellValue
    rw [h]

/-- Witness for C7 with a directory read from one owner line: a present
account maps to its owner, an absent one to `UNKNOWN`. -/
theorem c7_owner_lookup_witness :
    ownerCellValue (readAccountOwners ["4711\tAlice\n"]) "4711" = "Alice" ∧
    ownerCellValue (readAccountOwners ["4711\tAlice\n"]) "9999" =
      "UNKNOWN" :=
  ⟨(c7_owner_lookup (readAccountOwners ["4711\tAlice\n"]) "4711").1
      "Alice" (by decide),
   (c7_owner_lookup (readAccountOwners ["4711\tAlice\n"]) "9999").2.1
      (by decide)⟩

/-- C8: a counter file holding the integer `n` is rewritten to hold
`n + 30` (the per-run constant), which is also returned; a second run
over the written file yields `n + 60`. -/
theorem c8_counter_increment :
    ∀ (s : String) (n : Int), pyParseInt? (pyStrip s) = some n →
      incSavedTime (some s) =
        (n + SAVED_MINUTES_PER_RUN,
         intToString (n + SAVED_MINUTES_PER_RUN) ++ "\n") ∧
      incSavedTime (some (incSavedTime (some s)).2) =
        (n + SAVED_MINUTES_PER_RUN + SAVED_MINUTES_PER_RUN,
         intToString (n + SAVED_MINUTES_PER_RUN + SAVED_MINUTES_PER_RUN)
           ++ "\n") := by
  intro s n h
  have h1 : incSavedTime (some s) =
      (n + SAVED_MINUTES_PER_RUN,
       intToString (n + SAVED_MINUTES_PER_RUN) ++ "\n") := by
    unfold incSavedTime
    simp only [h]
  refine ⟨h1, ?_⟩
  rw [h1]
  show incSavedTime
    (some (intToString (n + SAVED_MINUTES_PER_RUN) ++ "\n")) = _
  unfold incSavedTime
  simp only [pyParseInt_roundtrip]

/-- Witness for C8 at counter contents `42`. -/
theorem c8_counter_increment_witness :
    incSavedTime (some "42") = (72, intToString 72 ++ "\n") ∧
    incSavedTime (some (incSavedTime (some "42")).2) =
      (102, intToString 102 ++ "\n") := by
  have h := c8_counter_increment "42" 42 (by decide)
  exact h

/-- C9: with a missing counter file or contents that do not parse as an
integer, the counter resets to zero, so the value written and returned
is exactly the per-run constant. -/
theorem c9_counter_reset :
    incSavedTime none =
      (SAVED_MINUTES_PER_RUN, intToString SAVED_MINUTES_PER_RUN ++ "\n") ∧
    (∀ s : String, pyParseInt? (pyStrip s) = none →
      incSavedTime (some s) =
        (SAVED_MINUTES_PER_RUN,
         intToString SAVED_MINUTES_PER_RUN ++ "\n")) := by
  constructor
  · decide
  · intro s h
    unfold incSavedTime
    simp only [h, zero_add]

/-- Witness for C9 at unparseable counter contents. -/
theorem c9_counter_reset_witness :
    incSavedTime (some "banana") =
      (SAVED_MINUTES_PER_RUN, intToString SAVED_MINUTES_PER_RUN ++ "\n") :=
  c9_counter_reset.2 "banana" (by decide)

/-- C10 counterexample: a saldo of Decimal 1.2E-10 (receivables
`0.00000000012` plus `0`) has adjusted exponent -10 and is formatted in
scientific form `"1.2E-10"`, whose rendering has a fractional part, yet
`rstrip('0')` strips an exponent digit: the transform stores
`"1.2E-1"`, which denotes 0.12 instead of the computed 1.2E-10 —
refuting the claim's for-every-fractional-value statement. -/
theorem c10_scientific_counterexample :
    (derivedValues? sciSampleRecord).map (fun d => d.saldo) =
      some ⟨12, -11⟩ ∧
    (transformRecord? sciSampleRecord).map (fun t => t.saldo) =
      some "1.2E-1" ∧
    (pyDecimalOfString? "1.2E-1").map PyDecimal.toRat = some (3 / 25) ∧
    PyDecimal.toRat ⟨12, -11⟩ = 3 / 25000000000 ∧
    (3 / 25 : ℚ) ≠ 3 / 25000000000 := by
  refine ⟨by decide, by decide, ?_, by norm_num [PyDecimal.toRat],
    by norm_num⟩
  rw [show pyDecimalOfString? "1.2E-1" = some ⟨12, -2⟩ from by decide]
  show some (PyDecimal.toRat ⟨12, -2⟩) = _
  norm_num [PyDecimal.toRat]

/-- C10 (amended): the trimming `rstrip('0').rstrip('.')` strips
significant trailing zeros from values whose formatting has no
fractional part — raw cred_limit `20` scales to Decimal 20000 yet
renders as `"20,"`, which (commas stripped) denotes 20, not 20000 —
while for every non-negative value with negative exponent that Python
formats in plain fixed-point form (adjusted exponent at least -6, e.g.
Decimal 1500.0 → `"1,500"`) only fractional noise is removed and the
rendered string still denotes the computed value.  A value rendered in
scientific form instead loses exponent digits, as the counterexample
shows. -/
theorem c10_formatting_amended :
    (transformRecord? sampleRecord).map (fun t => t.cred_limit) =
      some "20," ∧
    (derivedValues? sampleRecord).map (fun d => d.cred_limit_scaled) =
      some ⟨20000, 0⟩ ∧
    PyDecimal.toRat ⟨20000, 0⟩ = 20000 ∧
    (pyDecimalOfString? (stripCommas "20,")).map PyDecimal.toRat =
      some 20 ∧
    pyFormatStrip ⟨15000, -1⟩ = "1,500" ∧
    (∀ d : PyDecimal, d.exp < 0 → 0 ≤ d.mant →
      (-6 : Int) < d.exp + ((natToChars d.mant.toNat).length : Int) →
      (pyDecimalOfString? (stripCommas (pyFormatStrip d))).map
        PyDecimal.toRat = some d.toRat) := by
  refine ⟨by decide, by decide, by norm_num [PyDecimal.toRat], ?_,
    by decide, pyFormatStrip_roundtrip⟩
  rw [show pyDecimalOfString? (stripCommas "20,") = some ⟨20, 0⟩ from
    by decide]
  show some (PyDecimal.toRat ⟨20, 0⟩) = some 20
  norm_num [PyDecimal.toRat]

/-- Witness for C10's universal part at Decimal 1500.0. -/
theorem c10_formatting_witness :
    (⟨15000, -1⟩ : PyDecimal).exp < 0 ∧
    0 ≤ (⟨15000, -1⟩ : PyDecimal).mant ∧
    (-6 : Int) < (⟨15000, -1⟩ : PyDecimal).exp +
      ((natToChars (⟨15000, -1⟩ : PyDecimal).mant.toNat).length : Int) ∧
    (pyDecimalOfString? (stripCommas (pyFormatStrip ⟨15000, -1⟩))).map
      PyDecimal.toRat = some (PyDecimal.toRat ⟨15000, -1⟩) :=
  ⟨by decide, by decide, by decide,
   c10_formatting_amended.2.2.2.2.2 ⟨15000, -1⟩
     (by decide) (by decide) (by decide)⟩

end Pulhodina
